import Mathlib

/-!
Shallow embedding of `src/employee_changes_monitor.py`.

The reconciliation core (`main`) is modelled over:
* `Employee`   — one record as built by `fetch_employees` / loaded from the
  snapshot file: `{"id": int, "label": str, "updated": str|None}`.
* `Snapshot`   — a Python dict `str -> Employee` as an insertion-ordered
  association list (Python dicts preserve insertion order; updating an
  existing key keeps its position, `pop` removes the entry).
* `HEvent`     — one element of the per-record history JSON.  Each field of
  the event dict is a `PyField`: the key can be absent, present with value
  `None`, or present with a string; the nested `actor` value is an
  `ActorField` (absent key, `None`, or an object with a `displayName` field).
* `Crash`      — an uncaught Python exception escaping the per-record loop
  (`KeyError` from `h["created"]`, `TypeError` from comparing `None` with a
  string, `AttributeError` from `None.get`).  The notification channel is
  modelled by the ordered list of structured `ChangeEvent`s whose rendering
  the code logs and posts.
-/

set_option autoImplicit false

namespace ECM

/-- One field of a history-event dict: the key may be absent, hold `None`,
or hold a string. -/
inductive PyField where
  | absent
  | null
  | str (s : String)
deriving Repr, DecidableEq

/-- The nested `actor` value of a history event: absent key, `None`, or an
object carrying a `displayName` field. -/
inductive ActorField where
  | absent
  | null
  | obj (displayName : PyField)
deriving Repr, DecidableEq

/-- One history event as consumed by the update branch of `main`. -/
structure HEvent where
  created : PyField
  affectedAttribute : PyField
  oldValue : PyField
  newValue : PyField
  actor : ActorField
deriving Repr, DecidableEq

/-- One employee record: `{"id": e["id"], "label": e["label"],
"updated": e.get("updated")}`. -/
structure Employee where
  id : Nat
  label : String
  updated : Option String
deriving Repr, DecidableEq

/-- A Python dict `str -> record`, insertion ordered. -/
abbrev Snapshot := List (String × Employee)

/-- An uncaught exception escaping the reconciliation loop. -/
inductive Crash where
  | keyError
  | typeError
  | attrError
deriving Repr, DecidableEq

/-- The structured content of one notification emitted by `main`
(`[CREATED]`, `[UPDATED]`, `[DELETED]` messages). -/
inductive ChangeEvent where
  | created (id label : String)
  | updated (id label actor date : String) (changes : List String)
  | deleted (id label : String)
deriving Repr, DecidableEq

/-- `d[k]` lookup on the ordered dict model. -/
def dlookup (k : String) : Snapshot → Option Employee
  | [] => none
  | (k', v) :: rest => if k' = k then some v else dlookup k rest

/-- `d[k] = v`: replace in place when the key exists, append otherwise. -/
def dinsert (k : String) (v : Employee) : Snapshot → Snapshot
  | [] => [(k, v)]
  | (k', v') :: rest => if k' = k then (k, v) :: rest else (k', v') :: dinsert k v rest

/-- `d[k]["updated"] = ts`: mutate the stored record's timestamp in place. -/
def dupdateTs (k : String) (ts : Option String) : Snapshot → Snapshot
  | [] => []
  | (k', v') :: rest =>
    if k' = k then (k', { v' with updated := ts }) :: rest
    else (k', v') :: dupdateTs k ts rest

/-- `d.pop(k)`: remove the entry with key `k`. -/
def derase (k : String) : Snapshot → Snapshot
  | [] => []
  | (k', v') :: rest => if k' = k then rest else (k', v') :: derase k rest

/-- `list(d.keys())`. -/
def dkeys (s : Snapshot) : List String := s.map Prod.fst

/-- Python's `x or default` on an optional string (`None` and `""` are falsy). -/
def pyOr (o : Option String) (d : String) : String :=
  match o with
  | none => d
  | some s => if s = "" then d else s

/-- `h.get("affectedAttribute", "—")` as it ends up printed in the change
line: the default fires only when the key is absent; a present `None` is
rendered by the f-string as `"None"`. -/
def attrStr (f : PyField) : String :=
  match f with
  | .absent => "—"
  | .null => "None"
  | .str s => s

/-- `h.get("oldValue") or "None"` (same for `newValue`): absent key, `None`
and the empty string all collapse to `"None"`. -/
def valStr (f : PyField) : String :=
  match f with
  | .absent => "None"
  | .null => "None"
  | .str s => if s = "" then "None" else s

/-- The change line `f"{attr}: {old_val} → {new_val}"`. -/
def changeStr (h : HEvent) : String :=
  attrStr h.affectedAttribute ++ ": " ++ valStr h.oldValue ++ " → " ++ valStr h.newValue

/-- The change line as the specification's claim C5 describes it
(spec-side definition, for comparison with `changeStr`): substitute the
default exactly when the source value is null (`attribute = affectedAttribute
?? "—"`, `oldValue = oldValue ?? "None"`, `newValue = newValue ?? "None"`),
rendered in the `attribute: oldValue → newValue` shape of §6. -/
def changeStrClaim (h : HEvent) : String :=
  (match h.affectedAttribute with
    | PyField.absent => "—"
    | PyField.null => "—"
    | PyField.str s => s) ++ ": " ++
  (match h.oldValue with
    | PyField.absent => "None"
    | PyField.null => "None"
    | PyField.str s => s) ++ " → " ++
  (match h.newValue with
    | PyField.absent => "None"
    | PyField.null => "None"
    | PyField.str s => s)

/-- Whether `h.created` holds a string (the shape the code can consume
without crashing). -/
def PyField.isStr : PyField → Bool
  | .str _ => true
  | _ => false

/-- Lexicographic comparison of character lists by code point, a strict
proper-prefix-first order: the order Python uses to compare strings. -/
def charsLt : List Char → List Char → Bool
  | _, [] => false
  | [], _ :: _ => true
  | a :: as, b :: bs =>
    if a < b then true
    else if b < a then false
    else charsLt as bs

/-- Python's `a < b` on strings (so `s > t` in the source is `pyLt t s`). -/
def pyLt (a b : String) : Bool := charsLt a.data b.data

/-- The deduplication test `h["created"] > last_time` as a total Boolean
(only meaningful when `created` holds a string). -/
def createdAfter (lastTime : String) (h : HEvent) : Bool :=
  match h.created with
  | .str s => pyLt lastTime s
  | _ => false

/-- The loop building `changes`: for each event, `h["created"]` is read with
brackets (KeyError when the key is absent, TypeError when comparing `None`
against a string) and the change line is appended when strictly newer than
`last_time`. -/
def buildChanges (lastTime : String) : List HEvent → Except Crash (List String)
  | [] => .ok []
  | h :: hs =>
    match h.created with
    | .absent => .error .keyError
    | .null => .error .typeError
    | .str s =>
      if pyLt lastTime s then
        match buildChanges lastTime hs with
        | .error c => .error c
        | .ok cs => .ok (changeStr h :: cs)
      else buildChanges lastTime hs

/-- `history[-1].get("actor", {}).get("displayName", "Unknown")`:
an absent `actor` key falls back to `{}` hence `"Unknown"`; a `None` actor
raises AttributeError; an object defaults its missing `displayName` to
`"Unknown"` and renders a `None` one as `"None"`. -/
def actorName : ActorField → Except Crash String
  | .absent => .ok "Unknown"
  | .null => .error .attrError
  | .obj d =>
    .ok (match d with
      | .absent => "Unknown"
      | .null => "None"
      | .str s => s)

/-- `history[-1].get("created", "Unknown")` as rendered into the message. -/
def lastDate (h : HEvent) : String :=
  match h.created with
  | .absent => "Unknown"
  | .null => "None"
  | .str s => s

/-- The per-record history endpoint: transport errors
(`raise_for_status`) and JSON-parse errors are both caught by the
surrounding `try`, hence a single error case. -/
abbrev HistoryFetch := String → Except Unit (List HEvent)

/-- One iteration of the created/updated loop of `main` for the entry
`(empId, emp)` of `new_data`, acting on the working snapshot `old` and the
already-emitted events `evs`. -/
def step (hist : HistoryFetch) (old : Snapshot) (evs : List ChangeEvent)
    (empId : String) (emp : Employee) : Except Crash (Snapshot × List ChangeEvent) :=
  match dlookup empId old with
  | none =>
    .ok (dinsert empId emp old, evs ++ [.created empId emp.label])
  | some pr =>
    if emp.updated = pr.updated then .ok (old, evs)
    else
      match hist empId with
      | .error _ => .ok (old, evs)
      | .ok history =>
        if hne : history = [] then .ok (old, evs)
        else
          match buildChanges (pyOr pr.updated "0") history with
          | .error c => .error c
          | .ok changes =>
            if changes = [] then .ok (dupdateTs empId emp.updated old, evs)
            else
              match actorName (history.getLast hne).actor with
              | .error c => .error c
              | .ok actor =>
                .ok (dupdateTs empId emp.updated old,
                  evs ++ [.updated empId emp.label actor (lastDate (history.getLast hne)) changes])

/-- The created/updated pass: iterate `new_data.items()` in order, threading
the working snapshot; an uncaught exception aborts the whole run. -/
def pass1 (hist : HistoryFetch) : List (String × Employee) → Snapshot → List ChangeEvent →
    Except Crash (Snapshot × List ChangeEvent)
  | [], old, evs => .ok (old, evs)
  | (empId, emp) :: rest, old, evs =>
    match step hist old evs empId emp with
    | .error c => .error c
    | .ok p => pass1 hist rest p.1 p.2

/-- `old_data[emp_id].get("label", f"object_{emp_id}")`.  Records in this
model always carry a label, so the fallback is only reachable in
association lists that do not represent a dict (duplicate keys). -/
def deletedLabel (old : Snapshot) (empId : String) : String :=
  match dlookup empId old with
  | some r => r.label
  | none => "object_" ++ empId

/-- The deletion pass: iterate the frozen key list of the working snapshot,
emitting `[DELETED]` and popping every id absent from `new_data`. -/
def pass2 (newKeys : List String) : List String → Snapshot → List ChangeEvent →
    Snapshot × List ChangeEvent
  | [], old, evs => (old, evs)
  | empId :: ks, old, evs =>
    if empId ∈ newKeys then pass2 newKeys ks old evs
    else pass2 newKeys ks (derase empId old) (evs ++ [.deleted empId (deletedLabel old empId)])

/-- The reconciliation core of `main`: previous snapshot, freshly fetched
snapshot, history client; returns the emitted events and the snapshot that
gets saved, or the uncaught exception that aborted the run. -/
def main (old current : Snapshot) (hist : HistoryFetch) :
    Except Crash (List ChangeEvent × Snapshot) :=
  match pass1 hist current old [] with
  | .error c => .error c
  | .ok p =>
    let r := pass2 (dkeys current) (dkeys p.1) p.1 p.2
    .ok (r.2, r.1)

/-- One page of the catalog listing: the entries the server would deliver,
and whether the request comes back non-2xx. -/
structure Page where
  entries : List Employee
  failed : Bool
deriving Repr, DecidableEq

/-- The pagination loop of `fetch_employees`: a non-2xx response breaks the
loop (keeping what was accumulated); an empty page breaks; a short page
(fewer than 1000 entries) breaks after appending; otherwise continue. -/
def fetchLoop : List Page → List Employee
  | [] => []
  | p :: rest =>
    if p.failed then []
    else if p.entries.length = 0 then []
    else if p.entries.length < 1000 then p.entries
    else p.entries ++ fetchLoop rest

/-- `{str(e["id"]): e for e in employees}`. -/
def toDict (es : List Employee) : Snapshot :=
  es.foldl (fun d e => dinsert (toString e.id) e d) []

/-- `fetch_employees()` over a given page sequence. -/
def fetch_employees (pages : List Page) : Snapshot := toDict (fetchLoop pages)

/-- Whether the pagination loop stops because of a non-2xx response
(instrumentation used to state claim C1). -/
def fetchHitErr : List Page → Bool
  | [] => false
  | p :: rest =>
    p.failed || (!(p.entries.length = 0) && !(p.entries.length < 1000) && fetchHitErr rest)

/-- The complete remote record set behind the paginated listing. -/
def remoteEntries (pages : List Page) : List Employee := (pages.map Page.entries).flatten

/-- A whole run of `main` starting from the catalog fetch: reconcile the
previous snapshot against whatever `fetch_employees` returned. -/
def mainRun (old : Snapshot) (pages : List Page) (hist : HistoryFetch) :
    Except Crash (List ChangeEvent × Snapshot) :=
  main old (fetch_employees pages) hist

/-- `save_employees`: the file holds `list(data.values())`. -/
def save_employees (data : Snapshot) : List Employee := data.map Prod.snd

/-- `load_employees` on an existing file: re-key the stored list as
`{str(e["id"]): e for e in json.load(f)}`. -/
def load_employees (fileData : List Employee) : Snapshot := toDict fileData

/-- Projection used to state which record an event is about. -/
def eventId : ChangeEvent → String
  | .created k _ => k
  | .updated k _ _ _ _ => k
  | .deleted k _ => k

/-- Whether an event is an `[UPDATED]` notification for the given id. -/
def isUpdatedFor (empId : String) : ChangeEvent → Bool
  | .updated k _ _ _ _ => k == empId
  | _ => false

/-- Whether an event is a `[DELETED]` notification for the given id. -/
def isDeletedFor (empId : String) : ChangeEvent → Bool
  | .deleted k _ => k == empId
  | _ => false

/-- Whether an event is a `[DELETED]` notification. -/
def isDeletedEv : ChangeEvent → Bool
  | .deleted _ _ => true
  | _ => false

/-- The record the working snapshot holds for a `current` entry
`(empId, emp)` once the pass is over, as a function of the previous
snapshot (the per-branch summary of `step`; the error branches are
unreachable in a run that returned `.ok`). -/
def recordAfter (hist : HistoryFetch) (old : Snapshot) (empId : String) (emp : Employee) :
    Employee :=
  match dlookup empId old with
  | none => emp
  | some pr =>
    if emp.updated = pr.updated then pr
    else
      match hist empId with
      | .error _ => pr
      | .ok history =>
        if history = [] then pr
        else
          match buildChanges (pyOr pr.updated "0") history with
          | .error _ => pr
          | .ok _ => { pr with updated := emp.updated }

/-! ### Dictionary lemmas -/

theorem dlookup_eq_none_iff {k : String} {s : Snapshot} :
    dlookup k s = none ↔ k ∉ dkeys s := by
  induction s with
  | nil => simp [dlookup, dkeys]
  | cons p rest ih =>
    obtain ⟨k', v⟩ := p
    by_cases h : k' = k
    · subst h
      simp [dlookup, dkeys]
    · have h' : k ≠ k' := fun hh => h hh.symm
      simp [dlookup, dkeys, h, h', ih]

theorem mem_dkeys_of_dlookup {k : String} {s : Snapshot} {v : Employee}
    (h : dlookup k s = some v) : k ∈ dkeys s := by
  by_contra hn
  rw [← dlookup_eq_none_iff] at hn
  rw [h] at hn
  exact Option.noConfusion hn

theorem mem_of_dlookup {k : String} {s : Snapshot} {v : Employee}
    (h : dlookup k s = some v) : (k, v) ∈ s := by
  induction s with
  | nil => simp [dlookup] at h
  | cons p rest ih =>
    obtain ⟨k', v'⟩ := p
    by_cases hk : k' = k
    · subst hk
      simp [dlookup] at h
      simp [h]
    · simp [dlookup, hk] at h
      simp [ih h]

theorem dlookup_of_nodup_mem {k : String} {s : Snapshot} {v : Employee}
    (hn : (dkeys s).Nodup) (hm : (k, v) ∈ s) : dlookup k s = some v := by
  induction s with
  | nil => simp at hm
  | cons p rest ih =>
    obtain ⟨k', v'⟩ := p
    have hn' : k' ∉ dkeys rest ∧ (dkeys rest).Nodup := by
      simpa [dkeys, List.nodup_cons] using hn
    rcases List.mem_cons.mp hm with h | h
    · rw [Prod.mk.injEq] at h
      obtain ⟨h1, h2⟩ := h
      subst h1
      subst h2
      simp [dlookup]
    · have hk : k' ≠ k := by
        intro he
        subst he
        exact hn'.1 (List.mem_map_of_mem Prod.fst h)
      simp [dlookup, hk, ih hn'.2 h]

theorem dlookup_dinsert_ne {k k' : String} {v : Employee} {s : Snapshot} (h : k' ≠ k) :
    dlookup k (dinsert k' v s) = dlookup k s := by
  induction s with
  | nil => simp [dinsert, dlookup, h]
  | cons p rest ih =>
    obtain ⟨k₀, v₀⟩ := p
    by_cases h0 : k₀ = k'
    · subst h0
      simp [dinsert, dlookup, h]
    · by_cases h1 : k₀ = k
      · subst h1
        simp [dinsert, dlookup, h0]
      · simp [dinsert, dlookup, h0, h1, ih]

theorem dlookup_dinsert_self {k : String} {v : Employee} {s : Snapshot} :
    dlookup k (dinsert k v s) = some v := by
  induction s with
  | nil => simp [dinsert, dlookup]
  | cons p rest ih =>
    obtain ⟨k₀, v₀⟩ := p
    by_cases h0 : k₀ = k <;> simp [dinsert, dlookup, h0, ih]

theorem dlookup_dupdateTs_ne {k k' : String} {ts : Option String} {s : Snapshot} (h : k' ≠ k) :
    dlookup k (dupdateTs k' ts s) = dlookup k s := by
  induction s with
  | nil => rfl
  | cons p rest ih =>
    obtain ⟨k₀, v₀⟩ := p
    by_cases h0 : k₀ = k'
    · subst h0
      have hk : k₀ ≠ k := h
      simp [dupdateTs, dlookup, hk]
    · by_cases h1 : k₀ = k
      · subst h1
        simp [dupdateTs, dlookup, h0]
      · simp [dupdateTs, dlookup, h0, h1, ih]

theorem dlookup_dupdateTs_self {k : String} {ts : Option String} {s : Snapshot} {r : Employee}
    (h : dlookup k s = some r) :
    dlookup k (dupdateTs k ts s) = some { r with updated := ts } := by
  induction s with
  | nil => simp [dlookup] at h
  | cons p rest ih =>
    obtain ⟨k₀, v₀⟩ := p
    by_cases h0 : k₀ = k
    · subst h0
      simp [dlookup] at h
      simp [dupdateTs, dlookup, h]
    · simp [dlookup, h0] at h
      simp [dupdateTs, dlookup, h0, ih h]

theorem dlookup_derase_ne {k k' : String} {s : Snapshot} (h : k' ≠ k) :
    dlookup k (derase k' s) = dlookup k s := by
  induction s with
  | nil => rfl
  | cons p rest ih =>
    obtain ⟨k₀, v₀⟩ := p
    by_cases h0 : k₀ = k'
    · subst h0
      have hk : k₀ ≠ k := h
      simp [derase, dlookup, hk]
    · by_cases h1 : k₀ = k
      · subst h1
        simp [derase, dlookup, h0]
      · simp [derase, dlookup, h0, h1, ih]

theorem dkeys_cons {k : String} {v : Employee} {s : Snapshot} :
    dkeys ((k, v) :: s) = k :: dkeys s := rfl

theorem dkeys_dupdateTs {k : String} {ts : Option String} {s : Snapshot} :
    dkeys (dupdateTs k ts s) = dkeys s := by
  induction s with
  | nil => rfl
  | cons p rest ih =>
    obtain ⟨k₀, v₀⟩ := p
    by_cases h0 : k₀ = k
    · simp [dupdateTs, h0, dkeys]
    · rw [show dupdateTs k ts ((k₀, v₀) :: rest) = (k₀, v₀) :: dupdateTs k ts rest by
        simp [dupdateTs, h0]]
      rw [dkeys_cons, dkeys_cons, ih]

theorem dkeys_dinsert_notmem {k : String} {v : Employee} {s : Snapshot}
    (h : k ∉ dkeys s) : dkeys (dinsert k v s) = dkeys s ++ [k] := by
  induction s with
  | nil => simp [dinsert, dkeys]
  | cons p rest ih =>
    obtain ⟨k₀, v₀⟩ := p
    rw [dkeys_cons, List.mem_cons, not_or] at h
    have h0 : k₀ ≠ k := fun hh => h.1 hh.symm
    rw [show dinsert k v ((k₀, v₀) :: rest) = (k₀, v₀) :: dinsert k v rest by
      simp [dinsert, h0]]
    rw [dkeys_cons, dkeys_cons, ih h.2]
    rfl

theorem dlookup_append_right {k : String} {pre s : Snapshot} (h : k ∉ dkeys pre) :
    dlookup k (pre ++ s) = dlookup k s := by
  induction pre with
  | nil => rfl
  | cons p rest ih =>
    obtain ⟨k₀, v₀⟩ := p
    rw [dkeys_cons, List.mem_cons, not_or] at h
    have h0 : k₀ ≠ k := fun hh => h.1 hh.symm
    simp only [List.cons_append, dlookup, if_neg h0]
    exact ih h.2

theorem derase_append {k : String} {pre s : Snapshot} (h : k ∉ dkeys pre) :
    derase k (pre ++ s) = pre ++ derase k s := by
  induction pre with
  | nil => rfl
  | cons p rest ih =>
    obtain ⟨k₀, v₀⟩ := p
    rw [dkeys_cons, List.mem_cons, not_or] at h
    have h0 : k₀ ≠ k := fun hh => h.1 hh.symm
    simp only [List.cons_append, derase, if_neg h0, List.append_eq]
    rw [ih h.2]

/-! ### Step lemmas: one iteration of the created/updated loop -/

theorem step_ok_cases {hist : HistoryFetch} {old : Snapshot} {evs : List ChangeEvent}
    {empId : String} {emp : Employee} {s₂ : Snapshot} {e₂ : List ChangeEvent}
    (h : step hist old evs empId emp = .ok (s₂, e₂)) :
    (s₂ = old ∨ (dlookup empId old = none ∧ s₂ = dinsert empId emp old) ∨
      s₂ = dupdateTs empId emp.updated old) ∧
    (e₂ = evs ∨ (∃ l, e₂ = evs ++ [ChangeEvent.created empId l]) ∨
      ∃ l a d c, e₂ = evs ++ [ChangeEvent.updated empId l a d c]) := by
  unfold step at h
  split at h
  next hl =>
    simp only [Except.ok.injEq, Prod.mk.injEq] at h
    exact ⟨Or.inr (Or.inl ⟨hl, h.1.symm⟩), Or.inr (Or.inl ⟨emp.label, h.2.symm⟩)⟩
  next pr hl =>
    split at h
    next =>
      simp only [Except.ok.injEq, Prod.mk.injEq] at h
      exact ⟨Or.inl h.1.symm, Or.inl h.2.symm⟩
    next =>
      split at h
      next =>
        simp only [Except.ok.injEq, Prod.mk.injEq] at h
        exact ⟨Or.inl h.1.symm, Or.inl h.2.symm⟩
      next history hh =>
        split at h
        next =>
          simp only [Except.ok.injEq, Prod.mk.injEq] at h
          exact ⟨Or.inl h.1.symm, Or.inl h.2.symm⟩
        next hne =>
          split at h
          next => exact absurd h (by simp)
          next changes hbc =>
            split at h
            next =>
              simp only [Except.ok.injEq, Prod.mk.injEq] at h
              exact ⟨Or.inr (Or.inr h.1.symm), Or.inl h.2.symm⟩
            next =>
              split at h
              next => exact absurd h (by simp)
              next actor ha =>
                simp only [Except.ok.injEq, Prod.mk.injEq] at h
                exact ⟨Or.inr (Or.inr h.1.symm),
                  Or.inr (Or.inr ⟨emp.label, actor, _, changes, h.2.symm⟩)⟩

theorem step_lookup_ne {hist : HistoryFetch} {old : Snapshot} {evs : List ChangeEvent}
    {empId : String} {emp : Employee} {s₂ : Snapshot} {e₂ : List ChangeEvent} {id : String}
    (h : step hist old evs empId emp = .ok (s₂, e₂)) (hne : id ≠ empId) :
    dlookup id s₂ = dlookup id old := by
  rcases (step_ok_cases h).1 with h1 | ⟨_, h1⟩ | h1 <;> subst h1
  · rfl
  · exact dlookup_dinsert_ne fun hh => hne hh.symm
  · exact dlookup_dupdateTs_ne fun hh => hne hh.symm

theorem step_nodup {hist : HistoryFetch} {old : Snapshot} {evs : List ChangeEvent}
    {empId : String} {emp : Employee} {s₂ : Snapshot} {e₂ : List ChangeEvent}
    (h : step hist old evs empId emp = .ok (s₂, e₂)) (hn : (dkeys old).Nodup) :
    (dkeys s₂).Nodup := by
  rcases (step_ok_cases h).1 with h1 | ⟨hl, h1⟩ | h1 <;> subst h1
  · exact hn
  · rw [dkeys_dinsert_notmem (dlookup_eq_none_iff.mp hl)]
    simp [List.nodup_append, hn, dlookup_eq_none_iff.mp hl]
  · rw [dkeys_dupdateTs]
    exact hn

/-! ### Pass-1 lemmas -/

theorem pass1_append {hist : HistoryFetch} (es₁ es₂ : List (String × Employee))
    (old : Snapshot) (evs : List ChangeEvent) :
    pass1 hist (es₁ ++ es₂) old evs =
      match pass1 hist es₁ old evs with
      | .error c => .error c
      | .ok p => pass1 hist es₂ p.1 p.2 := by
  induction es₁ generalizing old evs with
  | nil => simp [pass1]
  | cons e rest ih =>
    obtain ⟨empId, emp⟩ := e
    simp only [List.cons_append, pass1]
    cases hs : step hist old evs empId emp with
    | error c => rfl
    | ok p => exact ih p.1 p.2

theorem pass1_frame {hist : HistoryFetch} {es : List (String × Employee)}
    {old s' : Snapshot} {evs evs' : List ChangeEvent} {id : String}
    (h : pass1 hist es old evs = .ok (s', evs')) (hid : id ∉ es.map Prod.fst) :
    dlookup id s' = dlookup id old := by
  induction es generalizing old evs with
  | nil =>
    simp only [pass1, Except.ok.injEq, Prod.mk.injEq] at h
    rw [← h.1]
  | cons e rest ih =>
    obtain ⟨empId, emp⟩ := e
    simp only [List.map_cons, List.mem_cons, not_or] at hid
    simp only [pass1] at h
    cases hs : step hist old evs empId emp with
    | error c =>
      rw [hs] at h
      cases h
    | ok p =>
      obtain ⟨s₂, e₂⟩ := p
      rw [hs] at h
      rw [ih h hid.2]
      exact step_lookup_ne hs hid.1

theorem pass1_nodup {hist : HistoryFetch} {es : List (String × Employee)}
    {old s' : Snapshot} {evs evs' : List ChangeEvent}
    (h : pass1 hist es old evs = .ok (s', evs')) (hn : (dkeys old).Nodup) :
    (dkeys s').Nodup := by
  induction es generalizing old evs with
  | nil =>
    simp only [pass1, Except.ok.injEq, Prod.mk.injEq] at h
    rw [← h.1]
    exact hn
  | cons e rest ih =>
    obtain ⟨empId, emp⟩ := e
    simp only [pass1] at h
    cases hs : step hist old evs empId emp with
    | error c =>
      rw [hs] at h
      cases h
    | ok p =>
      obtain ⟨s₂, e₂⟩ := p
      rw [hs] at h
      exact ih h (step_nodup hs hn)

theorem pass1_evs {hist : HistoryFetch} {es : List (String × Employee)}
    {old s' : Snapshot} {evs evs' : List ChangeEvent}
    (h : pass1 hist es old evs = .ok (s', evs')) :
    ∃ t, evs' = evs ++ t ∧
      ∀ ev ∈ t, eventId ev ∈ es.map Prod.fst ∧ isDeletedEv ev = false := by
  induction es generalizing old evs with
  | nil =>
    simp only [pass1, Except.ok.injEq, Prod.mk.injEq] at h
    exact ⟨[], by simp [h.2], by simp⟩
  | cons e rest ih =>
    obtain ⟨empId, emp⟩ := e
    simp only [pass1] at h
    cases hs : step hist old evs empId emp with
    | error c =>
      rw [hs] at h
      cases h
    | ok p =>
      obtain ⟨s₂, e₂⟩ := p
      rw [hs] at h
      obtain ⟨t₁, ht₁, hall₁⟩ := ih h
      rcases (step_ok_cases hs).2 with he | ⟨l, he⟩ | ⟨l, a, d, c, he⟩
      · refine ⟨t₁, by rw [ht₁, he], fun ev hev => ?_⟩
        exact ⟨by simp [(hall₁ ev hev).1], (hall₁ ev hev).2⟩
      · refine ⟨ChangeEvent.created empId l :: t₁, by rw [ht₁, he]; simp, fun ev hev => ?_⟩
        rcases List.mem_cons.mp hev with rfl | hev
        · exact ⟨by simp [eventId], rfl⟩
        · exact ⟨by simp [(hall₁ ev hev).1], (hall₁ ev hev).2⟩
      · refine ⟨ChangeEvent.updated empId l a d c :: t₁, by rw [ht₁, he]; simp,
          fun ev hev => ?_⟩
        rcases List.mem_cons.mp hev with rfl | hev
        · exact ⟨by simp [eventId], rfl⟩
        · exact ⟨by simp [(hall₁ ev hev).1], (hall₁ ev hev).2⟩

/-! ### Pass-2 lemmas -/

theorem pass2_lookup {newKeys : List String} {id : String} (hid : id ∈ newKeys)
    (ks : List String) (s : Snapshot) (evs : List ChangeEvent) :
    dlookup id (pass2 newKeys ks s evs).1 = dlookup id s := by
  induction ks generalizing s evs with
  | nil => rfl
  | cons k rest ih =>
    by_cases hk : k ∈ newKeys
    · simp only [pass2, if_pos hk]
      exact ih s evs
    · have hne : k ≠ id := fun hh => hk (hh ▸ hid)
      simp only [pass2, if_neg hk]
      rw [ih, dlookup_derase_ne hne]

theorem pass2_evs {newKeys : List String} (ks : List String) (s : Snapshot)
    (evs : List ChangeEvent) :
    ∃ t, (pass2 newKeys ks s evs).2 = evs ++ t ∧
      ∀ ev ∈ t, isDeletedEv ev = true ∧ eventId ev ∉ newKeys := by
  induction ks generalizing s evs with
  | nil => exact ⟨[], by simp [pass2], by simp⟩
  | cons k rest ih =>
    by_cases hk : k ∈ newKeys
    · simp only [pass2, if_pos hk]
      exact ih s evs
    · simp only [pass2, if_neg hk]
      obtain ⟨t, ht, hall⟩ := ih (derase k s) (evs ++ [.deleted k (deletedLabel s k)])
      refine ⟨ChangeEvent.deleted k (deletedLabel s k) :: t, by rw [ht]; simp,
        fun ev hev => ?_⟩
      rcases List.mem_cons.mp hev with rfl | hev
      · exact ⟨rfl, by simpa [eventId] using hk⟩
      · exact hall ev hev

theorem pass2_char {newKeys : List String} (s : Snapshot) :
    ∀ (pre : Snapshot) (evs : List ChangeEvent), (dkeys (pre ++ s)).Nodup →
      pass2 newKeys (dkeys s) (pre ++ s) evs =
        (pre ++ s.filter (fun p => decide (p.1 ∈ newKeys)),
         evs ++ (s.filter fun p => decide (p.1 ∉ newKeys)).map
           fun p => ChangeEvent.deleted p.1 p.2.label) := by
  induction s with
  | nil =>
    intro pre evs hn
    simp [pass2, dkeys]
  | cons p rest ih =>
    obtain ⟨k, v⟩ := p
    intro pre evs hn
    have hsplit : pre ++ (k, v) :: rest = (pre ++ [(k, v)]) ++ rest := by simp
    have hkeys : dkeys (pre ++ (k, v) :: rest) = dkeys pre ++ k :: dkeys rest := by
      simp [dkeys]
    have hpre : k ∉ dkeys pre := by
      rw [hkeys] at hn
      intro hmem
      exact (List.disjoint_of_nodup_append hn) hmem (List.mem_cons_self k _)
    rw [dkeys_cons]
    by_cases hk : k ∈ newKeys
    · simp only [pass2, if_pos hk]
      rw [hsplit] at hn ⊢
      rw [ih (pre ++ [(k, v)]) evs hn]
      rw [List.filter_cons, List.filter_cons]
      simp [hk, List.append_assoc]
    · simp only [pass2, if_neg hk]
      have hlab : deletedLabel (pre ++ (k, v) :: rest) k = v.label := by
        unfold deletedLabel
        rw [dlookup_append_right hpre]
        simp [dlookup]
      have herase : derase k (pre ++ (k, v) :: rest) = pre ++ rest := by
        rw [derase_append hpre]
        simp [derase]
      have hn' : (dkeys (pre ++ rest)).Nodup := by
        have hsub : List.Sublist (dkeys (pre ++ rest)) (dkeys (pre ++ (k, v) :: rest)) := by
          rw [hkeys, show dkeys (pre ++ rest) = dkeys pre ++ dkeys rest by simp [dkeys]]
          exact List.Sublist.append_left (List.sublist_cons_self k (dkeys rest)) (dkeys pre)
        exact hn.sublist hsub
      rw [hlab, herase, ih pre (evs ++ [ChangeEvent.deleted k v.label]) hn']
      rw [List.filter_cons, List.filter_cons]
      simp [hk, List.append_assoc]

/-! ### Decomposing a successful run of main -/

theorem main_ok_decomp {old current : Snapshot} {hist : HistoryFetch}
    {evsF : List ChangeEvent} {final : Snapshot}
    (h : main old current hist = .ok (evsF, final)) :
    ∃ snap1 evs1, pass1 hist current old [] = .ok (snap1, evs1) ∧
      pass2 (dkeys current) (dkeys snap1) snap1 evs1 = (final, evsF) := by
  unfold main at h
  cases hp : pass1 hist current old [] with
  | error c =>
    rw [hp] at h
    cases h
  | ok p =>
    rw [hp] at h
    simp only [Except.ok.injEq, Prod.mk.injEq] at h
    exact ⟨p.1, p.2, rfl, Prod.ext h.2 h.1⟩

/-- Splitting `pass1` of a successful run at one entry of `current`:
the state seen by that entry's `step`, and the shape of the event list. -/
theorem pass1_mem_decomp {hist : HistoryFetch} {es : List (String × Employee)}
    {prev snap1 : Snapshot} {evs1 : List ChangeEvent} {empId : String} {emp : Employee}
    (hn : (es.map Prod.fst).Nodup) (hmem : (empId, emp) ∈ es)
    (hp : pass1 hist es prev [] = .ok (snap1, evs1)) :
    ∃ s₁ e₁ s₂ e₂ t₂,
      dlookup empId s₁ = dlookup empId prev ∧
      step hist s₁ e₁ empId emp = .ok (s₂, e₂) ∧
      dlookup empId snap1 = dlookup empId s₂ ∧
      (∀ ev ∈ e₁, eventId ev ≠ empId ∧ isDeletedEv ev = false) ∧
      evs1 = e₂ ++ t₂ ∧ (∀ ev ∈ t₂, eventId ev ≠ empId ∧ isDeletedEv ev = false) := by
  obtain ⟨es₁, es₂, rfl⟩ := List.append_of_mem hmem
  have hkeys : (es₁ ++ (empId, emp) :: es₂).map Prod.fst =
      es₁.map Prod.fst ++ empId :: es₂.map Prod.fst := by simp
  rw [hkeys] at hn
  have hid₁ : empId ∉ es₁.map Prod.fst := by
    intro hmem'
    exact (List.disjoint_of_nodup_append hn) hmem' (List.mem_cons_self empId _)
  have hn₂ : (empId :: es₂.map Prod.fst).Nodup := hn.of_append_right
  have hid₂ : empId ∉ es₂.map Prod.fst := (List.nodup_cons.mp hn₂).1
  rw [pass1_append] at hp
  cases hp₁ : pass1 hist es₁ prev [] with
  | error c =>
    rw [hp₁] at hp
    cases hp
  | ok p =>
    obtain ⟨s₁, e₁⟩ := p
    rw [hp₁] at hp
    simp only [pass1] at hp
    cases hs : step hist s₁ e₁ empId emp with
    | error c =>
      rw [hs] at hp
      cases hp
    | ok q =>
      obtain ⟨s₂, e₂⟩ := q
      rw [hs] at hp
      obtain ⟨t₂, ht₂, hall₂⟩ := pass1_evs hp
      obtain ⟨t₁, ht₁, hall₁⟩ := pass1_evs hp₁
      refine ⟨s₁, e₁, s₂, e₂, t₂, pass1_frame hp₁ hid₁, hs,
        pass1_frame hp hid₂, ?_, ht₂, ?_⟩
      · intro ev hev
        rw [ht₁] at hev
        simp only [List.nil_append] at hev
        refine ⟨fun hh => hid₁ ?_, (hall₁ ev hev).2⟩
        rw [← hh]
        exact (hall₁ ev hev).1
      · intro ev hev
        refine ⟨fun hh => hid₂ ?_, (hall₂ ev hev).2⟩
        rw [← hh]
        exact (hall₂ ev hev).1

/-! ### Step branch lemmas -/

theorem step_created {hist : HistoryFetch} {old : Snapshot} {evs : List ChangeEvent}
    {empId : String} {emp : Employee} (hl : dlookup empId old = none) :
    step hist old evs empId emp =
      .ok (dinsert empId emp old, evs ++ [.created empId emp.label]) := by
  simp [step, hl]

theorem step_noop {hist : HistoryFetch} {old : Snapshot} {evs : List ChangeEvent}
    {empId : String} {emp pr : Employee}
    (hl : dlookup empId old = some pr) (hts : emp.updated = pr.updated) :
    step hist old evs empId emp = .ok (old, evs) := by
  simp [step, hl, hts]

theorem step_histFail {hist : HistoryFetch} {old : Snapshot} {evs : List ChangeEvent}
    {empId : String} {emp pr : Employee} {er : Unit}
    (hl : dlookup empId old = some pr) (hts : emp.updated ≠ pr.updated)
    (hh : hist empId = .error er) :
    step hist old evs empId emp = .ok (old, evs) := by
  simp [step, hl, hts, hh]

theorem step_histEmpty {hist : HistoryFetch} {old : Snapshot} {evs : List ChangeEvent}
    {empId : String} {emp pr : Employee}
    (hl : dlookup empId old = some pr) (hts : emp.updated ≠ pr.updated)
    (hh : hist empId = .ok []) :
    step hist old evs empId emp = .ok (old, evs) := by
  simp [step, hl, hts, hh]

theorem step_changesEmpty {hist : HistoryFetch} {old : Snapshot} {evs : List ChangeEvent}
    {empId : String} {emp pr : Employee} {history : List HEvent}
    (hl : dlookup empId old = some pr) (hts : emp.updated ≠ pr.updated)
    (hh : hist empId = .ok history) (hne : history ≠ [])
    (hbc : buildChanges (pyOr pr.updated "0") history = .ok []) :
    step hist old evs empId emp = .ok (dupdateTs empId emp.updated old, evs) := by
  simp [step, hl, hts, hh, hne, hbc]

theorem step_buildCrash {hist : HistoryFetch} {old : Snapshot} {evs : List ChangeEvent}
    {empId : String} {emp pr : Employee} {history : List HEvent} {c : Crash}
    (hl : dlookup empId old = some pr) (hts : emp.updated ≠ pr.updated)
    (hh : hist empId = .ok history) (hne : history ≠ [])
    (hbc : buildChanges (pyOr pr.updated "0") history = .error c) :
    step hist old evs empId emp = .error c := by
  simp [step, hl, hts, hh, hne, hbc]

theorem step_actorCrash {hist : HistoryFetch} {old : Snapshot} {evs : List ChangeEvent}
    {empId : String} {emp pr : Employee} {history : List HEvent}
    {changes : List String} {c : Crash}
    (hl : dlookup empId old = some pr) (hts : emp.updated ≠ pr.updated)
    (hh : hist empId = .ok history) (hne : history ≠ [])
    (hbc : buildChanges (pyOr pr.updated "0") history = .ok changes) (hcs : changes ≠ [])
    (ha : actorName (history.getLast hne).actor = .error c) :
    step hist old evs empId emp = .error c := by
  simp [step, hl, hts, hh, hne, hbc, hcs, ha]

theorem step_updated {hist : HistoryFetch} {old : Snapshot} {evs : List ChangeEvent}
    {empId : String} {emp pr : Employee} {history : List HEvent}
    {changes : List String} {actor : String}
    (hl : dlookup empId old = some pr) (hts : emp.updated ≠ pr.updated)
    (hh : hist empId = .ok history) (hne : history ≠ [])
    (hbc : buildChanges (pyOr pr.updated "0") history = .ok changes) (hcs : changes ≠ [])
    (ha : actorName (history.getLast hne).actor = .ok actor) :
    step hist old evs empId emp = .ok (dupdateTs empId emp.updated old,
      evs ++ [.updated empId emp.label actor (lastDate (history.getLast hne)) changes]) := by
  simp [step, hl, hts, hh, hne, hbc, hcs, ha]

/-! ### Event-shape helpers -/

theorem isUpdatedFor_eq_false_of_ne {id : String} {ev : ChangeEvent}
    (h : eventId ev ≠ id) : isUpdatedFor id ev = false := by
  cases ev with
  | updated k l a d c =>
    simp only [eventId] at h
    simp only [isUpdatedFor]
    exact beq_eq_false_iff_ne.mpr h
  | created k l => rfl
  | deleted k l => rfl

theorem isUpdatedFor_eq_false_of_deleted {id : String} {ev : ChangeEvent}
    (h : isDeletedEv ev = true) : isUpdatedFor id ev = false := by
  cases ev with
  | updated k l a d c => cases h
  | created k l => rfl
  | deleted k l => rfl

theorem isDeletedFor_eq_false_of_ne {id : String} {ev : ChangeEvent}
    (h : eventId ev ≠ id) : isDeletedFor id ev = false := by
  cases ev with
  | deleted k l =>
    simp only [eventId] at h
    simp only [isDeletedFor]
    exact beq_eq_false_iff_ne.mpr h
  | created k l => rfl
  | updated k l a d c => rfl

theorem isDeletedFor_eq_false_of_not_deleted {id : String} {ev : ChangeEvent}
    (h : isDeletedEv ev = false) : isDeletedFor id ev = false := by
  cases ev with
  | deleted k l => cases h
  | created k l => rfl
  | updated k l a d c => rfl

/-! ### No-op and all-deleted runs -/

theorem pass1_noop {hist : HistoryFetch} {es : List (String × Employee)} {old : Snapshot}
    {evs : List ChangeEvent} (h : ∀ p ∈ es, dlookup p.1 old = some p.2) :
    pass1 hist es old evs = .ok (old, evs) := by
  induction es with
  | nil => rfl
  | cons e rest ih =>
    obtain ⟨empId, emp⟩ := e
    have he := h (empId, emp) (List.mem_cons_self _ _)
    simp only [pass1]
    rw [step_noop he rfl]
    exact ih fun p hp => h p (List.mem_cons_of_mem _ hp)

theorem pass2_all_in {newKeys ks : List String} {s : Snapshot}
    {evs : List ChangeEvent} (h : ∀ k ∈ ks, k ∈ newKeys) :
    pass2 newKeys ks s evs = (s, evs) := by
  induction ks with
  | nil => rfl
  | cons k rest ih =>
    simp only [pass2, if_pos (h k (List.mem_cons_self _ _))]
    exact ih fun k' hk => h k' (List.mem_cons_of_mem _ hk)

theorem pass2_nil_newKeys (s : Snapshot) (evs : List ChangeEvent) :
    pass2 [] (dkeys s) s evs =
      ([], evs ++ s.map fun p => ChangeEvent.deleted p.1 p.2.label) := by
  induction s generalizing evs with
  | nil => simp [pass2, dkeys]
  | cons p rest ih =>
    obtain ⟨k, v⟩ := p
    rw [dkeys_cons]
    simp only [pass2, List.not_mem_nil, if_false]
    rw [show deletedLabel ((k, v) :: rest) k = v.label by simp [deletedLabel, dlookup]]
    rw [show derase k ((k, v) :: rest) = rest by simp [derase]]
    rw [ih (evs ++ [ChangeEvent.deleted k v.label])]
    simp

/-! ### The deduplication filter -/

theorem buildChanges_eq_filter {lastTime : String} {hs : List HEvent}
    (hwf : ∀ h ∈ hs, (h.created).isStr = true) :
    buildChanges lastTime hs = .ok ((hs.filter (createdAfter lastTime)).map changeStr) := by
  induction hs with
  | nil => rfl
  | cons h rest ih =>
    have hh := hwf h (List.mem_cons_self h rest)
    have ih' := ih fun x hx => hwf x (List.mem_cons_of_mem _ hx)
    cases hc : h.created with
    | absent =>
      rw [hc] at hh
      cases hh
    | null =>
      rw [hc] at hh
      cases hh
    | str s =>
      cases hlt : pyLt lastTime s with
      | true =>
        have hca : createdAfter lastTime h = true := by simp [createdAfter, hc, hlt]
        simp only [buildChanges, hc, hlt, if_true, ih', List.filter_cons, hca,
          List.map_cons]
      | false =>
        have hca : createdAfter lastTime h = false := by simp [createdAfter, hc, hlt]
        simp only [buildChanges, hc, hlt, if_false, ih', List.filter_cons, hca]
        simp

/-! ### Round-trip of the snapshot file -/

theorem toDict_cons_frame {k : String} {r : Employee} {d : Snapshot} {es : List Employee}
    (h : ∀ e ∈ es, toString e.id ≠ k) :
    List.foldl (fun d e => dinsert (toString e.id) e d) ((k, r) :: d) es =
      (k, r) :: List.foldl (fun d e => dinsert (toString e.id) e d) d es := by
  induction es generalizing d with
  | nil => rfl
  | cons e rest ih =>
    have hk : k ≠ toString e.id := fun hh => h e (List.mem_cons_self e rest) hh.symm
    simp only [List.foldl_cons]
    rw [show dinsert (toString e.id) e ((k, r) :: d) = (k, r) :: dinsert (toString e.id) e d by
      simp [dinsert, hk]]
    exact ih fun x hx => h x (List.mem_cons_of_mem _ hx)

/-! ### Shape of the deletion-pass output -/

theorem filter_deleted_map_nil {dId : String} {newKeys : List String} {s : Snapshot}
    (h : ∀ p ∈ s, p.1 ≠ dId) :
    ((s.filter fun p => decide (p.1 ∉ newKeys)).map
        fun p => ChangeEvent.deleted p.1 p.2.label).filter (isDeletedFor dId) = [] := by
  rw [List.filter_eq_nil_iff]
  intro ev hev
  obtain ⟨p, hp, rfl⟩ := List.mem_map.mp hev
  have hp' := (List.mem_filter.mp hp).1
  simpa [isDeletedFor] using h p hp'

theorem filter_deleted_map {dId : String} {r : Employee} {newKeys : List String} {s : Snapshot}
    (hn : (dkeys s).Nodup) (hl : dlookup dId s = some r) (hnc : dId ∉ newKeys) :
    ((s.filter fun p => decide (p.1 ∉ newKeys)).map
        fun p => ChangeEvent.deleted p.1 p.2.label).filter (isDeletedFor dId) =
      [ChangeEvent.deleted dId r.label] := by
  induction s with
  | nil => cases hl
  | cons p rest ih =>
    obtain ⟨k, v⟩ := p
    rw [dkeys_cons, List.nodup_cons] at hn
    by_cases hk : k = dId
    · subst hk
      have hv : v = r := by simpa [dlookup] using hl
      subst hv
      have hrest : ∀ p ∈ rest, p.1 ≠ k := by
        intro p hp hc
        exact hn.1 (hc ▸ List.mem_map_of_mem Prod.fst hp)
      rw [List.filter_cons]
      simp only [decide_eq_true hnc, if_true, List.map_cons, List.filter_cons]
      simp only [isDeletedFor, beq_self_eq_true, if_true]
      rw [filter_deleted_map_nil hrest]
    · have hl' : dlookup dId rest = some r := by simpa [dlookup, hk] using hl
      by_cases hmem : k ∉ newKeys
      · rw [List.filter_cons]
        simp only [decide_eq_true hmem, if_true, List.map_cons, List.filter_cons]
        simp only [isDeletedFor, beq_eq_false_iff_ne.mpr hk, if_false]
        exact ih hn.2 hl'
      · rw [List.filter_cons]
        simp only [decide_eq_false hmem, if_false]
        exact ih hn.2 hl'

theorem dlookup_filter_mem_none {dId : String} {newKeys : List String} {s : Snapshot}
    (hnc : dId ∉ newKeys) :
    dlookup dId (s.filter fun p => decide (p.1 ∈ newKeys)) = none := by
  induction s with
  | nil => rfl
  | cons p rest ih =>
    obtain ⟨k, v⟩ := p
    rw [List.filter_cons]
    by_cases hk : k ∈ newKeys
    · have hne : k ≠ dId := fun hh => hnc (hh ▸ hk)
      simp only [decide_eq_true hk, if_true, dlookup, if_neg hne]
      exact ih
    · simp only [decide_eq_false hk, if_false]
      exact ih

/-! ### Claim C8 -/

/-- Claim C8 (confirmed): for every snapshot `S` (with the dict invariant of
distinct keys), reconciling `current = previous = S` yields an empty event
list and a final snapshot equal to `S`. -/
theorem claim_c8 (S : Snapshot) (hist : HistoryFetch) (h : (dkeys S).Nodup) :
    main S S hist = .ok ([], S) := by
  have h1 : pass1 hist S S [] = .ok (S, []) :=
    pass1_noop fun p hp => dlookup_of_nodup_mem h hp
  have h2 : pass2 (dkeys S) (dkeys S) S [] = (S, []) :=
    pass2_all_in fun k hk => hk
  simp [main, h1, h2]

/-- Witness for C8 at a concrete snapshot. -/
theorem claim_c8_witness :
    (dkeys [("1", (⟨1, "A", some "t"⟩ : Employee))]).Nodup ∧
    main [("1", ⟨1, "A", some "t"⟩)] [("1", ⟨1, "A", some "t"⟩)] (fun _ => .error ()) =
      .ok ([], [("1", ⟨1, "A", some "t"⟩)]) :=
  ⟨by decide, claim_c8 _ _ (by decide)⟩

/-! ### Claim C10 -/

/-- Claim C10 (confirmed): for every snapshot whose keys are the string form
of each contained record's id (and which satisfies the dict invariant of
distinct keys), `save_employees` followed by `load_employees` reconstructs
an equal snapshot. -/
theorem claim_c10 {m : Snapshot} (h₁ : (dkeys m).Nodup)
    (h₂ : ∀ p ∈ m, p.1 = toString p.2.id) :
    load_employees (save_employees m) = m := by
  induction m with
  | nil => rfl
  | cons p rest ih =>
    obtain ⟨k, r⟩ := p
    rw [dkeys_cons, List.nodup_cons] at h₁
    have hk : k = toString r.id := h₂ (k, r) (List.mem_cons_self _ _)
    have hframe : ∀ e ∈ rest.map Prod.snd, toString e.id ≠ k := by
      intro e he hc
      obtain ⟨q, hq, rfl⟩ := List.mem_map.mp he
      apply h₁.1
      have hq1 : q.1 = k := (h₂ q (List.mem_cons_of_mem _ hq)).trans hc
      rw [← hq1]
      exact List.mem_map_of_mem Prod.fst hq
    show toDict (((k, r) :: rest).map Prod.snd) = (k, r) :: rest
    simp only [List.map_cons, toDict, List.foldl_cons]
    rw [show dinsert (toString r.id) r [] = [(toString r.id, r)] from rfl, ← hk]
    rw [toDict_cons_frame hframe]
    have hrest := ih h₁.2 fun q hq => h₂ q (List.mem_cons_of_mem _ hq)
    simp only [load_employees, save_employees, toDict] at hrest
    rw [hrest]

/-- Witness for C10 at a concrete two-record snapshot. -/
theorem claim_c10_witness :
    load_employees (save_employees [("1", ⟨1, "A", some "t"⟩), ("2", ⟨2, "B", none⟩)]) =
      [("1", ⟨1, "A", some "t"⟩), ("2", ⟨2, "B", none⟩)] :=
  claim_c10 (by decide) (by decide)

/-! ### Claim C6 -/

/-- Claim C6 (code bug): the claim says a malformed history response for one
record — e.g. an event lacking expected fields — is treated identically to a
transport error (logged and skipped).  In the code, `h["created"]` is read
outside the `try` block: a history event without a `created` key raises an
uncaught KeyError that aborts the whole pass, while a transport error on the
same record is skipped and the run completes.  The two conjuncts evaluate
the model at the failing input and at the corresponding transport error. -/
theorem claim_c6_code_bug :
    main [("1", ⟨1, "A", some "t1"⟩)] [("1", ⟨1, "A", some "t2"⟩)]
        (fun _ => .ok [⟨.absent, .str "x", .str "a", .str "b", .obj (.str "C")⟩]) =
      .error Crash.keyError ∧
    main [("1", ⟨1, "A", some "t1"⟩)] [("1", ⟨1, "A", some "t2"⟩)]
        (fun _ => .error ()) =
      .ok ([], [("1", ⟨1, "A", some "t1"⟩)]) :=
  ⟨rfl, rfl⟩

/-! ### Claim C1 -/

/-- Counterexample to claim C1: a non-2xx response while fetching the
catalog is not fatal.  With a single failing page whose remote content is
one record, `fetchHitErr` is true, `fetch_employees` returns the empty
catalog (a strict subset of the remote record set), and reconciliation
still proceeds: it emits a Deleted event for the remote-surviving record
and persists the emptied snapshot. -/
theorem claim_c1_counterexample :
    fetchHitErr [⟨[⟨1, "A", some "t1"⟩], true⟩] = true ∧
    fetch_employees [⟨[⟨1, "A", some "t1"⟩], true⟩] = [] ∧
    remoteEntries [⟨[⟨1, "A", some "t1"⟩], true⟩] = [⟨1, "A", some "t1"⟩] ∧
    mainRun [("1", ⟨1, "A", some "t1"⟩)] [⟨[⟨1, "A", some "t1"⟩], true⟩]
        (fun _ => .error ()) =
      .ok ([ChangeEvent.deleted "1" "A"], []) :=
  ⟨rfl, rfl, rfl, rfl⟩

/-- Claim C1 (corrected): a non-2xx response while fetching the catalog is
not fatal — `fetch_employees` stops paginating and returns what was
accumulated so far, and reconciliation proceeds against that partial
catalog.  When the first page fails the fetched catalog is empty, so the
run reports every previously known record as deleted and persists the
emptied snapshot. -/
theorem claim_c1_amended (es : List Employee) (rest : List Page) (old : Snapshot)
    (hist : HistoryFetch) :
    fetch_employees (⟨es, true⟩ :: rest) = [] ∧
    mainRun old (⟨es, true⟩ :: rest) hist =
      .ok (old.map fun p => ChangeEvent.deleted p.1 p.2.label, []) := by
  have hf : fetch_employees (⟨es, true⟩ :: rest) = [] := by
    simp [fetch_employees, fetchLoop, toDict]
  refine ⟨hf, ?_⟩
  unfold mainRun
  rw [hf]
  have h1 : pass1 hist ([] : Snapshot) old [] = .ok (old, []) := rfl
  have h2 := pass2_nil_newKeys old []
  simp only [main, h1]
  rw [show dkeys ([] : Snapshot) = [] from rfl, h2]
  simp

/-! ### Claim C3 -/

/-- Claim C3 (confirmed): when the history fetch errors for a record whose
timestamp changed between previous and current, no Updated event is emitted
for that id during the run, and the next snapshot retains the full previous
record (in particular the previous — not current — timestamp), so the
timestamp comparison of a subsequent pass with the same inputs fires again. -/
theorem claim_c3 {prev current : Snapshot} {hist : HistoryFetch}
    {empId : String} {emp pr : Employee} {evsF : List ChangeEvent} {final : Snapshot}
    (hcur : (dkeys current).Nodup)
    (hmem : (empId, emp) ∈ current)
    (hold : dlookup empId prev = some pr)
    (hts : emp.updated ≠ pr.updated)
    (hfail : hist empId = .error ())
    (hrun : main prev current hist = .ok (evsF, final)) :
    (∀ ev ∈ evsF, isUpdatedFor empId ev = false) ∧ dlookup empId final = some pr := by
  obtain ⟨snap1, evs1, hp1, hp2⟩ := main_ok_decomp hrun
  obtain ⟨s₁, e₁, s₂, e₂, t₂, hf₁, hs, hf₂, he₁, hevs1, ht₂⟩ :=
    pass1_mem_decomp hcur hmem hp1
  have hl₁ : dlookup empId s₁ = some pr := hf₁.trans hold
  rw [step_histFail hl₁ hts hfail] at hs
  simp only [Except.ok.injEq, Prod.mk.injEq] at hs
  obtain ⟨hs₂, he₂⟩ := hs
  have hidNew : empId ∈ dkeys current := List.mem_map_of_mem Prod.fst hmem
  obtain ⟨t₃, ht₃, hall₃⟩ := @pass2_evs (dkeys current) (dkeys snap1) snap1 evs1
  have hevF : evsF = (e₁ ++ t₂) ++ t₃ := by
    have h2 : (pass2 (dkeys current) (dkeys snap1) snap1 evs1).2 = evsF := by rw [hp2]
    rw [← h2, ht₃, hevs1, ← he₂]
  constructor
  · intro ev hev
    rw [hevF] at hev
    rcases List.mem_append.mp hev with hev' | hev'
    · rcases List.mem_append.mp hev' with h | h
      · exact isUpdatedFor_eq_false_of_ne (he₁ ev h).1
      · exact isUpdatedFor_eq_false_of_ne (ht₂ ev h).1
    · exact isUpdatedFor_eq_false_of_deleted (hall₃ ev hev').1
  · have hfin : (pass2 (dkeys current) (dkeys snap1) snap1 evs1).1 = final := by rw [hp2]
    rw [← hfin, @pass2_lookup (dkeys current) empId hidNew (dkeys snap1) snap1 evs1]
    rw [hf₂, ← hs₂]
    exact hl₁

/-- Witness for C3: a one-record snapshot whose timestamp changed and whose
history fetch fails; the run emits nothing and keeps the previous record. -/
theorem claim_c3_witness :
    (∀ ev ∈ ([] : List ChangeEvent), isUpdatedFor "1" ev = false) ∧
    dlookup "1" [("1", (⟨1, "A", some "t1"⟩ : Employee))] = some ⟨1, "A", some "t1"⟩ :=
  @claim_c3 [("1", ⟨1, "A", some "t1"⟩)] [("1", ⟨1, "A", some "t2"⟩)] (fun _ => .error ())
    "1" ⟨1, "A", some "t2"⟩ ⟨1, "A", some "t1"⟩ [] [("1", ⟨1, "A", some "t1"⟩)]
    (by decide) (by decide) (by decide) (by decide) rfl rfl

/-! ### Claim C7 -/

/-- Claim C7 (confirmed): when an Updated event is emitted for a record, its
actor and date are derived from the last element of the full unfiltered
history list returned by the API (`history[-1]`), not from the last
filtered event. -/
theorem claim_c7 {prev current : Snapshot} {hist : HistoryFetch}
    {empId : String} {emp pr : Employee} {history : List HEvent}
    {changes : List String} {actor : String} {evsF : List ChangeEvent} {final : Snapshot}
    (hcur : (dkeys current).Nodup) (hmem : (empId, emp) ∈ current)
    (hold : dlookup empId prev = some pr) (hts : emp.updated ≠ pr.updated)
    (hh : hist empId = .ok history) (hne : history ≠ [])
    (hbc : buildChanges (pyOr pr.updated "0") history = .ok changes) (hcs : changes ≠ [])
    (ha : actorName (history.getLast hne).actor = .ok actor)
    (hrun : main prev current hist = .ok (evsF, final)) :
    ChangeEvent.updated empId emp.label actor (lastDate (history.getLast hne)) changes ∈
      evsF := by
  obtain ⟨snap1, evs1, hp1, hp2⟩ := main_ok_decomp hrun
  obtain ⟨s₁, e₁, s₂, e₂, t₂, hf₁, hs, hf₂, he₁, hevs1, ht₂⟩ :=
    pass1_mem_decomp hcur hmem hp1
  have hl₁ : dlookup empId s₁ = some pr := hf₁.trans hold
  rw [step_updated hl₁ hts hh hne hbc hcs ha] at hs
  simp only [Except.ok.injEq, Prod.mk.injEq] at hs
  obtain ⟨hs₂, he₂⟩ := hs
  obtain ⟨t₃, ht₃, hall₃⟩ := @pass2_evs (dkeys current) (dkeys snap1) snap1 evs1
  have hevF : evsF = ((e₁ ++ [ChangeEvent.updated empId emp.label actor
      (lastDate (history.getLast hne)) changes]) ++ t₂) ++ t₃ := by
    have h2 : (pass2 (dkeys current) (dkeys snap1) snap1 evs1).2 = evsF := by rw [hp2]
    rw [← h2, ht₃, hevs1, ← he₂]
  rw [hevF]
  simp

/-- Witness for C7: the unfiltered history ends with an older event (by
`Olga` at `T0`, itself filtered out of the reported changes); the emitted
event carries that actor and date, not those of the filtered change. -/
theorem claim_c7_witness :
    ChangeEvent.updated "1" "A" "Olga" "T0" ["f2: c → d"] ∈
      [ChangeEvent.updated "1" "A" "Olga" "T0" ["f2: c → d"]] :=
  @claim_c7 [("1", ⟨1, "A", some "T1"⟩)] [("1", ⟨1, "A", some "T3"⟩)]
    (fun _ => .ok [⟨.str "T2", .str "f2", .str "c", .str "d", .obj (.str "Zed")⟩,
                   ⟨.str "T0", .str "f0", .str "a", .str "b", .obj (.str "Olga")⟩])
    "1" ⟨1, "A", some "T3"⟩ ⟨1, "A", some "T1"⟩
    [⟨.str "T2", .str "f2", .str "c", .str "d", .obj (.str "Zed")⟩,
     ⟨.str "T0", .str "f0", .str "a", .str "b", .obj (.str "Olga")⟩]
    ["f2: c → d"] "Olga" [ChangeEvent.updated "1" "A" "Olga" "T0" ["f2: c → d"]]
    [("1", ⟨1, "A", some "T3"⟩)]
    (by decide) (by decide) (by decide) (by decide) rfl (by decide) rfl (by decide) rfl rfl

/-! ### Claim C4 -/

/-- Claim C4 (confirmed): for a record whose timestamp changed, with
`lastKnown` computed as the code does (`old_updated or "0"` — the previous
timestamp when present and truthy, otherwise the sentinel `"0"`, which
sorts before every real timestamp), the emitted field-change list consists
of the change lines of exactly those history events whose `created` is
strictly greater than `lastKnown`, in history order. -/
theorem claim_c4 {prev current : Snapshot} {hist : HistoryFetch}
    {empId : String} {emp pr : Employee} {history : List HEvent} {actor : String}
    {evsF : List ChangeEvent} {final : Snapshot}
    (hcur : (dkeys current).Nodup) (hmem : (empId, emp) ∈ current)
    (hold : dlookup empId prev = some pr) (hts : emp.updated ≠ pr.updated)
    (hh : hist empId = .ok history) (hne : history ≠ [])
    (hwf : ∀ h ∈ history, (h.created).isStr = true)
    (hcs : (history.filter (createdAfter (pyOr pr.updated "0"))).map changeStr ≠ [])
    (ha : actorName (history.getLast hne).actor = .ok actor)
    (hrun : main prev current hist = .ok (evsF, final)) :
    evsF.filter (isUpdatedFor empId) =
      [ChangeEvent.updated empId emp.label actor (lastDate (history.getLast hne))
        ((history.filter (createdAfter (pyOr pr.updated "0"))).map changeStr)] := by
  obtain ⟨snap1, evs1, hp1, hp2⟩ := main_ok_decomp hrun
  obtain ⟨s₁, e₁, s₂, e₂, t₂, hf₁, hs, hf₂, he₁, hevs1, ht₂⟩ :=
    pass1_mem_decomp hcur hmem hp1
  have hl₁ : dlookup empId s₁ = some pr := hf₁.trans hold
  have hbc : buildChanges (pyOr pr.updated "0") history =
      .ok ((history.filter (createdAfter (pyOr pr.updated "0"))).map changeStr) :=
    buildChanges_eq_filter hwf
  rw [step_updated hl₁ hts hh hne hbc hcs ha] at hs
  simp only [Except.ok.injEq, Prod.mk.injEq] at hs
  obtain ⟨hs₂, he₂⟩ := hs
  obtain ⟨t₃, ht₃, hall₃⟩ := @pass2_evs (dkeys current) (dkeys snap1) snap1 evs1
  have hevF : evsF = ((e₁ ++ [ChangeEvent.updated empId emp.label actor
      (lastDate (history.getLast hne))
      ((history.filter (createdAfter (pyOr pr.updated "0"))).map changeStr)]) ++ t₂) ++ t₃ := by
    have h2 : (pass2 (dkeys current) (dkeys snap1) snap1 evs1).2 = evsF := by rw [hp2]
    rw [← h2, ht₃, hevs1, ← he₂]
  have hnil₁ : e₁.filter (isUpdatedFor empId) = [] := by
    rw [List.filter_eq_nil_iff]
    intro a ha'
    simp [isUpdatedFor_eq_false_of_ne (he₁ a ha').1]
  have hnil₂ : t₂.filter (isUpdatedFor empId) = [] := by
    rw [List.filter_eq_nil_iff]
    intro a ha'
    simp [isUpdatedFor_eq_false_of_ne (ht₂ a ha').1]
  have hnil₃ : t₃.filter (isUpdatedFor empId) = [] := by
    rw [List.filter_eq_nil_iff]
    intro a ha'
    simp [isUpdatedFor_eq_false_of_deleted (hall₃ a ha').1]
  rw [hevF, List.filter_append, List.filter_append, List.filter_append,
    hnil₁, hnil₂, hnil₃]
  simp [isUpdatedFor]

/-- Witness for C4 (the P4 instance): previous timestamp `T1`, history
events at `T0 < T1` and `T2 > T1`; only the `T2` event's change line is
emitted. -/
theorem claim_c4_witness :
    List.filter (isUpdatedFor "1") [ChangeEvent.updated "1" "A" "Zed" "T2" ["f2: c → d"]] =
      [ChangeEvent.updated "1" "A" "Zed" "T2" ["f2: c → d"]] :=
  @claim_c4 [("1", ⟨1, "A", some "T1"⟩)] [("1", ⟨1, "A", some "T3"⟩)]
    (fun _ => .ok [⟨.str "T0", .str "f0", .str "a", .str "b", .obj (.str "Olga")⟩,
                   ⟨.str "T2", .str "f2", .str "c", .str "d", .obj (.str "Zed")⟩])
    "1" ⟨1, "A", some "T3"⟩ ⟨1, "A", some "T1"⟩
    [⟨.str "T0", .str "f0", .str "a", .str "b", .obj (.str "Olga")⟩,
     ⟨.str "T2", .str "f2", .str "c", .str "d", .obj (.str "Zed")⟩]
    "Zed" [ChangeEvent.updated "1" "A" "Zed" "T2" ["f2: c → d"]]
    [("1", ⟨1, "A", some "T3"⟩)]
    (by decide) (by decide) (by decide) (by decide) rfl (by decide) (by decide)
    (by decide) rfl rfl

/-! ### Claim C5 -/

/-- Counterexample to claim C5: the defaults are not substituted "exactly
when the source value is null".  For a filtered event with a null
`affectedAttribute` and an empty-string `oldValue`, the claim's construction
(`changeStrClaim`) yields `"—:  → b"`, but the run emits
`"None: None → b"`: a null attribute renders as `"None"` (the `"—"`
default fires only for an absent key) and a non-null empty-string value is
also replaced by `"None"`. -/
theorem claim_c5_counterexample :
    main [("1", ⟨1, "A", some "t1"⟩)] [("1", ⟨1, "A", some "t2"⟩)]
        (fun _ => .ok [⟨.str "t9", .null, .str "", .str "b", .absent⟩]) =
      .ok ([ChangeEvent.updated "1" "A" "Unknown" "t9" ["None: None → b"]],
           [("1", ⟨1, "A", some "t2"⟩)]) ∧
    changeStrClaim ⟨.str "t9", .null, .str "", .str "b", .absent⟩ = "—:  → b" ∧
    ("None: None → b" : String) ≠ "—:  → b" :=
  ⟨rfl, rfl, by decide⟩

/-- Claim C5 (corrected): each field change in an Updated event is the
rendered line `attr: old → new` of its filtered history event, preserving
the relative order of the filtered events, where the attribute falls back
to `"—"` only when the `affectedAttribute` key is absent (a null value
renders as `"None"`), and `oldValue`/`newValue` fall back to `"None"` when
absent, null, or the empty string. -/
theorem claim_c5_amended {prev current : Snapshot} {hist : HistoryFetch}
    {empId : String} {emp pr : Employee} {history : List HEvent} {actor : String}
    {evsF : List ChangeEvent} {final : Snapshot}
    (hcur : (dkeys current).Nodup) (hmem : (empId, emp) ∈ current)
    (hold : dlookup empId prev = some pr) (hts : emp.updated ≠ pr.updated)
    (hh : hist empId = .ok history) (hne : history ≠ [])
    (hwf : ∀ h ∈ history, (h.created).isStr = true)
    (hcs : (history.filter (createdAfter (pyOr pr.updated "0"))).map changeStr ≠ [])
    (ha : actorName (history.getLast hne).actor = .ok actor)
    (hrun : main prev current hist = .ok (evsF, final)) :
    evsF.filter (isUpdatedFor empId) =
      [ChangeEvent.updated empId emp.label actor (lastDate (history.getLast hne))
        ((history.filter (createdAfter (pyOr pr.updated "0"))).map fun h =>
          attrStr h.affectedAttribute ++ ": " ++ valStr h.oldValue ++ " → " ++
            valStr h.newValue)] ∧
    attrStr PyField.absent = "—" ∧ attrStr PyField.null = "None" ∧
    (∀ s, attrStr (PyField.str s) = s) ∧
    valStr PyField.absent = "None" ∧ valStr PyField.null = "None" ∧
    valStr (PyField.str "") = "None" ∧ (∀ s, s ≠ "" → valStr (PyField.str s) = s) := by
  refine ⟨?_, rfl, rfl, fun s => rfl, rfl, rfl, rfl, fun s hs => by simp [valStr, hs]⟩
  obtain ⟨snap1, evs1, hp1, hp2⟩ := main_ok_decomp hrun
  obtain ⟨s₁, e₁, s₂, e₂, t₂, hf₁, hs, hf₂, he₁, hevs1, ht₂⟩ :=
    pass1_mem_decomp hcur hmem hp1
  have hl₁ : dlookup empId s₁ = some pr := hf₁.trans hold
  have hbc : buildChanges (pyOr pr.updated "0") history =
      .ok ((history.filter (createdAfter (pyOr pr.updated "0"))).map changeStr) :=
    buildChanges_eq_filter hwf
  rw [step_updated hl₁ hts hh hne hbc hcs ha] at hs
  simp only [Except.ok.injEq, Prod.mk.injEq] at hs
  obtain ⟨hs₂, he₂⟩ := hs
  obtain ⟨t₃, ht₃, hall₃⟩ := @pass2_evs (dkeys current) (dkeys snap1) snap1 evs1
  have hevF : evsF = ((e₁ ++ [ChangeEvent.updated empId emp.label actor
      (lastDate (history.getLast hne))
      ((history.filter (createdAfter (pyOr pr.updated "0"))).map changeStr)]) ++ t₂) ++ t₃ := by
    have h2 : (pass2 (dkeys current) (dkeys snap1) snap1 evs1).2 = evsF := by rw [hp2]
    rw [← h2, ht₃, hevs1, ← he₂]
  have hnil₁ : e₁.filter (isUpdatedFor empId) = [] := by
    rw [List.filter_eq_nil_iff]
    intro a ha'
    simp [isUpdatedFor_eq_false_of_ne (he₁ a ha').1]
  have hnil₂ : t₂.filter (isUpdatedFor empId) = [] := by
    rw [List.filter_eq_nil_iff]
    intro a ha'
    simp [isUpdatedFor_eq_false_of_ne (ht₂ a ha').1]
  have hnil₃ : t₃.filter (isUpdatedFor empId) = [] := by
    rw [List.filter_eq_nil_iff]
    intro a ha'
    simp [isUpdatedFor_eq_false_of_deleted (hall₃ a ha').1]
  rw [hevF, List.filter_append, List.filter_append, List.filter_append,
    hnil₁, hnil₂, hnil₃]
  simp only [List.nil_append, List.append_nil]
  have hkeep : List.filter (isUpdatedFor empId)
      [ChangeEvent.updated empId emp.label actor (lastDate (history.getLast hne))
        ((history.filter (createdAfter (pyOr pr.updated "0"))).map changeStr)] =
      [ChangeEvent.updated empId emp.label actor (lastDate (history.getLast hne))
        ((history.filter (createdAfter (pyOr pr.updated "0"))).map changeStr)] := by
    simp [isUpdatedFor]
  rw [hkeep]
  rfl

/-- Witness for the corrected C5: a filtered event with a null attribute,
an empty-string old value, and a string new value produces the change line
`"None: None → b"`. -/
theorem claim_c5_amended_witness :
    List.filter (isUpdatedFor "1") [ChangeEvent.updated "1" "A" "Unknown" "t9"
        ["None: None → b"]] =
      [ChangeEvent.updated "1" "A" "Unknown" "t9" ["None: None → b"]] ∧
    attrStr PyField.absent = "—" ∧ attrStr PyField.null = "None" ∧
    (∀ s, attrStr (PyField.str s) = s) ∧
    valStr PyField.absent = "None" ∧ valStr PyField.null = "None" ∧
    valStr (PyField.str "") = "None" ∧ (∀ s, s ≠ "" → valStr (PyField.str s) = s) :=
  @claim_c5_amended [("1", ⟨1, "A", some "t1"⟩)] [("1", ⟨1, "A", some "t2"⟩)]
    (fun _ => .ok [⟨.str "t9", .null, .str "", .str "b", .absent⟩])
    "1" ⟨1, "A", some "t2"⟩ ⟨1, "A", some "t1"⟩
    [⟨.str "t9", .null, .str "", .str "b", .absent⟩] "Unknown"
    [ChangeEvent.updated "1" "A" "Unknown" "t9" ["None: None → b"]]
    [("1", ⟨1, "A", some "t2"⟩)]
    (by decide) (by decide) (by decide) (by decide) rfl (by decide) (by decide)
    (by decide) rfl rfl

/-! ### Claim C2 -/

/-- Counterexample to claim C2: after a pass, a pre-existing record does not
carry current's label (only its timestamp is assigned), and a record whose
history fetch succeeded but returned an empty list also retains the
previous timestamp.  Here record "1" keeps label `"A"` although current
carries `"A2"`, and record "2" keeps timestamp `"t1"` although its history
fetch succeeded (returning `[]`) and current carries `"t2"`. -/
theorem claim_c2_counterexample :
    main [("1", ⟨1, "A", some "t1"⟩), ("2", ⟨2, "B", some "t1"⟩)]
        [("1", ⟨1, "A2", some "t2"⟩), ("2", ⟨2, "B", some "t2"⟩)]
        (fun i => if i = "1" then
            .ok [⟨.str "t2", .str "x", .str "a", .str "b", .obj (.str "C")⟩]
          else .ok []) =
      .ok ([ChangeEvent.updated "1" "A2" "C" "t2" ["x: a → b"]],
           [("1", ⟨1, "A", some "t2"⟩), ("2", ⟨2, "B", some "t1"⟩)]) ∧
    ("A" : String) ≠ "A2" ∧ (some "t1" : Option String) ≠ some "t2" :=
  ⟨rfl, by decide, by decide⟩

/-- Claim C2 (corrected): after a pass, the persisted snapshot contains
exactly the ids present in current.  An id new in current maps to current's
full record; a pre-existing id keeps the previous record — previous label
included — with only its timestamp advanced to current's, and retains the
previous timestamp not only when the history fetch failed but also when the
timestamp was unchanged or the fetch returned an empty history
(`recordAfter` is this per-id case analysis). -/
theorem claim_c2_amended {prev current : Snapshot} {hist : HistoryFetch}
    {evsF : List ChangeEvent} {final : Snapshot}
    (hpn : (dkeys prev).Nodup) (hcn : (dkeys current).Nodup)
    (hrun : main prev current hist = .ok (evsF, final)) :
    (∀ empId emp, (empId, emp) ∈ current →
      dlookup empId final = some (recordAfter hist prev empId emp)) ∧
    (∀ id, id ∈ dkeys final ↔ id ∈ dkeys current) := by
  obtain ⟨snap1, evs1, hp1, hp2⟩ := main_ok_decomp hrun
  have hsn : (dkeys snap1).Nodup := pass1_nodup hp1 hpn
  have hchar := @pass2_char (dkeys current) snap1 [] evs1 hsn
  have hpair := hp2.symm.trans hchar
  simp only [List.nil_append] at hpair
  rw [Prod.mk.injEq] at hpair
  obtain ⟨hfin, hevF⟩ := hpair
  have hmain : ∀ empId emp, (empId, emp) ∈ current →
      dlookup empId final = some (recordAfter hist prev empId emp) := by
    intro empId emp hmem
    obtain ⟨s₁, e₁, s₂, e₂, t₂, hf₁, hs, hf₂, he₁, hevs1, ht₂⟩ :=
      pass1_mem_decomp hcn hmem hp1
    have hidNew : empId ∈ dkeys current := List.mem_map_of_mem Prod.fst hmem
    have hfin' : (pass2 (dkeys current) (dkeys snap1) snap1 evs1).1 = final := by rw [hp2]
    have hfs : dlookup empId final = dlookup empId s₂ := by
      rw [← hfin', @pass2_lookup (dkeys current) empId hidNew (dkeys snap1) snap1 evs1, hf₂]
    rw [hfs]
    cases hold : dlookup empId prev with
    | none =>
      have hl₁ : dlookup empId s₁ = none := hf₁.trans hold
      rw [step_created hl₁] at hs
      simp only [Except.ok.injEq, Prod.mk.injEq] at hs
      rw [← hs.1, dlookup_dinsert_self]
      simp [recordAfter, hold]
    | some pr =>
      have hl₁ : dlookup empId s₁ = some pr := hf₁.trans hold
      by_cases hts : emp.updated = pr.updated
      · rw [step_noop hl₁ hts] at hs
        simp only [Except.ok.injEq, Prod.mk.injEq] at hs
        rw [← hs.1, hl₁]
        simp [recordAfter, hold, hts]
      · cases hh : hist empId with
        | error er =>
          rw [step_histFail hl₁ hts hh] at hs
          simp only [Except.ok.injEq, Prod.mk.injEq] at hs
          rw [← hs.1, hl₁]
          simp [recordAfter, hold, hts, hh]
        | ok history =>
          by_cases hne : history = []
          · subst hne
            rw [step_histEmpty hl₁ hts hh] at hs
            simp only [Except.ok.injEq, Prod.mk.injEq] at hs
            rw [← hs.1, hl₁]
            simp [recordAfter, hold, hts, hh]
          · cases hbc : buildChanges (pyOr pr.updated "0") history with
            | error c =>
              rw [step_buildCrash hl₁ hts hh hne hbc] at hs
              cases hs
            | ok changes =>
              by_cases hcs : changes = []
              · subst hcs
                rw [step_changesEmpty hl₁ hts hh hne hbc] at hs
                simp only [Except.ok.injEq, Prod.mk.injEq] at hs
                rw [← hs.1, dlookup_dupdateTs_self hl₁]
                simp [recordAfter, hold, hts, hh, hne, hbc]
              · cases ha : actorName (history.getLast hne).actor with
                | error c =>
                  rw [step_actorCrash hl₁ hts hh hne hbc hcs ha] at hs
                  cases hs
                | ok actor =>
                  rw [step_updated hl₁ hts hh hne hbc hcs ha] at hs
                  simp only [Except.ok.injEq, Prod.mk.injEq] at hs
                  rw [← hs.1, dlookup_dupdateTs_self hl₁]
                  simp [recordAfter, hold, hts, hh, hne, hbc]
  refine ⟨hmain, fun id => ⟨?_, ?_⟩⟩
  · intro hid
    rw [hfin] at hid
    obtain ⟨p, hp, hpe⟩ := List.mem_map.mp hid
    have hdec := of_decide_eq_true (List.mem_filter.mp hp).2
    rw [← hpe]
    exact hdec
  · intro hid
    obtain ⟨p, hp, hpe⟩ := List.mem_map.mp hid
    have hlk := hmain p.1 p.2 hp
    rw [← hpe]
    exact mem_dkeys_of_dlookup hlk

/-- Witness for the corrected C2 at the counterexample's inputs: record "1"
is advanced to timestamp `t2` keeping label `"A"`, and record "2" (empty
history) keeps timestamp `t1`. -/
theorem claim_c2_amended_witness :
    dlookup "1" [("1", (⟨1, "A", some "t2"⟩ : Employee)), ("2", ⟨2, "B", some "t1"⟩)] =
      some (recordAfter
        (fun i => if i = "1" then
            .ok [⟨.str "t2", .str "x", .str "a", .str "b", .obj (.str "C")⟩]
          else .ok [])
        [("1", ⟨1, "A", some "t1"⟩), ("2", ⟨2, "B", some "t1"⟩)] "1" ⟨1, "A2", some "t2"⟩) ∧
    dlookup "2" [("1", (⟨1, "A", some "t2"⟩ : Employee)), ("2", ⟨2, "B", some "t1"⟩)] =
      some (recordAfter
        (fun i => if i = "1" then
            .ok [⟨.str "t2", .str "x", .str "a", .str "b", .obj (.str "C")⟩]
          else .ok [])
        [("1", ⟨1, "A", some "t1"⟩), ("2", ⟨2, "B", some "t1"⟩)] "2" ⟨2, "B", some "t2"⟩) :=
  ⟨(@claim_c2_amended [("1", ⟨1, "A", some "t1"⟩), ("2", ⟨2, "B", some "t1"⟩)]
      [("1", ⟨1, "A2", some "t2"⟩), ("2", ⟨2, "B", some "t2"⟩)]
      (fun i => if i = "1" then
          .ok [⟨.str "t2", .str "x", .str "a", .str "b", .obj (.str "C")⟩]
        else .ok [])
      [ChangeEvent.updated "1" "A2" "C" "t2" ["x: a → b"]]
      [("1", ⟨1, "A", some "t2"⟩), ("2", ⟨2, "B", some "t1"⟩)]
      (by decide) (by decide) rfl).1 "1" ⟨1, "A2", some "t2"⟩ (by decide),
   (@claim_c2_amended [("1", ⟨1, "A", some "t1"⟩), ("2", ⟨2, "B", some "t1"⟩)]
      [("1", ⟨1, "A2", some "t2"⟩), ("2", ⟨2, "B", some "t2"⟩)]
      (fun i => if i = "1" then
          .ok [⟨.str "t2", .str "x", .str "a", .str "b", .obj (.str "C")⟩]
        else .ok [])
      [ChangeEvent.updated "1" "A2" "C" "t2" ["x: a → b"]]
      [("1", ⟨1, "A", some "t2"⟩), ("2", ⟨2, "B", some "t1"⟩)]
      (by decide) (by decide) rfl).1 "2" ⟨2, "B", some "t2"⟩ (by decide)⟩

/-! ### Claim C9 -/

/-- Claim C9 (confirmed): for every id present in the working snapshot after
pass 1 but absent from current, the run emits exactly one Deleted event,
carrying the label recorded in the working snapshot, and the id is absent
from the final snapshot. -/
theorem claim_c9 {prev current : Snapshot} {hist : HistoryFetch} {snap1 : Snapshot}
    {evs1 evsF : List ChangeEvent} {final : Snapshot} {dId : String} {r : Employee}
    (hpn : (dkeys prev).Nodup)
    (hp1 : pass1 hist current prev [] = .ok (snap1, evs1))
    (hl : dlookup dId snap1 = some r)
    (hnc : dId ∉ dkeys current)
    (hrun : main prev current hist = .ok (evsF, final)) :
    evsF.filter (isDeletedFor dId) = [ChangeEvent.deleted dId r.label] ∧
    dlookup dId final = none := by
  obtain ⟨snap1', evs1', hp1', hp2⟩ := main_ok_decomp hrun
  have hpp := hp1'.symm.trans hp1
  simp only [Except.ok.injEq, Prod.mk.injEq] at hpp
  obtain ⟨h1, h2⟩ := hpp
  rw [h1, h2] at hp2
  have hsn : (dkeys snap1).Nodup := pass1_nodup hp1 hpn
  have hchar := @pass2_char (dkeys current) snap1 [] evs1 hsn
  have hpair := hp2.symm.trans hchar
  simp only [List.nil_append] at hpair
  rw [Prod.mk.injEq] at hpair
  obtain ⟨hfin, hevF⟩ := hpair
  constructor
  · rw [hevF, List.filter_append]
    obtain ⟨t₁, ht₁, hall₁⟩ := pass1_evs hp1
    have hnil : evs1.filter (isDeletedFor dId) = [] := by
      rw [List.filter_eq_nil_iff]
      intro ev hev
      rw [ht₁] at hev
      simp only [List.nil_append] at hev
      simp [isDeletedFor_eq_false_of_not_deleted (hall₁ ev hev).2]
    rw [hnil, List.nil_append]
    exact filter_deleted_map hsn hl hnc
  · rw [hfin]
    exact dlookup_filter_mem_none hnc

/-- Witness for C9: id "9" survives pass 1 with label `"B"`, is absent from
current, and the run emits exactly its Deleted event and drops it from the
final snapshot. -/
theorem claim_c9_witness :
    List.filter (isDeletedFor "9") [ChangeEvent.deleted "9" "B"] =
      [ChangeEvent.deleted "9" "B"] ∧
    dlookup "9" [("1", (⟨1, "A", some "t"⟩ : Employee))] = none :=
  @claim_c9 [("1", ⟨1, "A", some "t"⟩), ("9", ⟨9, "B", some "t"⟩)]
    [("1", ⟨1, "A", some "t"⟩)] (fun _ => .error ())
    [("1", ⟨1, "A", some "t"⟩), ("9", ⟨9, "B", some "t"⟩)] []
    [ChangeEvent.deleted "9" "B"] [("1", ⟨1, "A", some "t"⟩)]
    "9" ⟨9, "B", some "t"⟩
    (by decide) rfl rfl (by decide) rfl

end ECM
